import Mathlib

/-!
Verification of the `undo` crate core against its specification.

The repository contains two generations of the library:

* `src/stack.rs` — the linear record, called `UndoStack` there: a vector of
  boxed `UndoCmd` trait objects, a cursor `idx`, an optional `limit`, and the
  `on_clean` / `on_dirty` callbacks.  Commands are infallible (`redo` / `undo`
  return `()`), mutate themselves, and expose an optional merge id
  (`fn id(&self) -> Option<u64>`).  Merging wraps two commands into the private
  `MergeCmd` composite.
* `src/merge.rs` + `src/lib.rs` — the newer command layer: `Command<R>` with
  fallible `apply` / `undo` / `redo` returning `Result`, the `Merge` policy
  enum, and the `Merged<R>` composite that runs its sub-commands in order.

Both are embedded shallowly below.  A trait object `Box<dyn UndoCmd>` is
modelled as `DynCmd C`: a tree whose leaves carry a user command state of type
`C` and whose inner nodes are `MergeCmd` composites; the dynamic dispatch table
is a `CmdOps C R` record of the trait methods (commands mutate themselves, so
each method returns the updated command state together with the receiver).
-/

namespace Undo

/-- The callback fired by the stack: `on_clean` (state went dirty → clean) or
`on_dirty` (clean → dirty).  `src/stack.rs` stores them as optional closures;
we record which one an operation invokes. -/
inductive Event where
  | clean : Event
  | dirty : Event
deriving DecidableEq, Repr

/-- A boxed command as stored by `UndoStack`: either a user command (state of
type `C`) or a `MergeCmd` composite of two boxed commands
(`src/stack.rs`, `struct MergeCmd`). -/
inductive DynCmd (C : Type) where
  | base : C → DynCmd C
  | merged : DynCmd C → DynCmd C → DynCmd C
deriving DecidableEq, Repr

/-- The `UndoCmd` trait of `src/stack.rs`: `redo(&mut self)`, `undo(&mut self)`
and `id(&self) -> Option<u64>`.  The receiver edited by the commands is the
external state `R`; `&mut self` is modelled by returning the updated command
state. -/
structure CmdOps (C R : Type) where
  redo : C → R → C × R
  undo : C → R → C × R
  id : C → Option Nat

variable {C R : Type}

/-- `MergeCmd::redo`: `self.cmd1.redo(); self.cmd2.redo();` — first command
first, lifted over the command tree. -/
def DynCmd.redo (ops : CmdOps C R) : DynCmd C → R → DynCmd C × R
  | .base c, r =>
      let p := ops.redo c r
      (.base p.1, p.2)
  | .merged a b, r =>
      let pa := DynCmd.redo ops a r
      let pb := DynCmd.redo ops b pa.2
      (.merged pa.1 pb.1, pb.2)

/-- `MergeCmd::undo`: `self.cmd2.undo(); self.cmd1.undo();` — second command
first, lifted over the command tree. -/
def DynCmd.undo (ops : CmdOps C R) : DynCmd C → R → DynCmd C × R
  | .base c, r =>
      let p := ops.undo c r
      (.base p.1, p.2)
  | .merged a b, r =>
      let pb := DynCmd.undo ops b r
      let pa := DynCmd.undo ops a pb.2
      (.merged pa.1 pb.1, pa.2)

/-- `MergeCmd::id`: `self.cmd1.id()` — the id of the first merged command. -/
def DynCmd.id (ops : CmdOps C R) : DynCmd C → Option Nat
  | .base c => ops.id c
  | .merged a _ => DynCmd.id ops a

/-- The `UndoStack` struct of `src/stack.rs`: the command vector, the cursor
`idx`, and the optional `limit`.  The callbacks are not part of the state; the
operations below report which callback they fire as an `Option Event`. -/
structure UndoStack (C : Type) where
  stack : List (DynCmd C)
  idx : Nat
  limit : Option Nat
deriving DecidableEq, Repr

/-- `UndoStack::new` / `with_limit` / `with_capacity(_and_limit)`: an empty
stack with cursor 0 (capacity is not modelled; it does not affect behaviour). -/
def UndoStack.new (limit : Option Nat) : UndoStack C :=
  ⟨[], 0, limit⟩

/-- `UndoStack::is_clean`: `self.idx == self.stack.len()`. -/
def UndoStack.isClean (s : UndoStack C) : Bool :=
  s.idx == s.stack.length

/-- `UndoStack::is_dirty`: `!self.is_clean()`. -/
def UndoStack.isDirty (s : UndoStack C) : Bool :=
  !s.isClean

/-- The redo-availability predicate `cursor < |entries|` of the spec.  In
`src/stack.rs` this is exactly `is_dirty` whenever `idx ≤ |stack|`. -/
def UndoStack.canRedo (s : UndoStack C) : Bool :=
  decide (s.idx < s.stack.length)

/-- The merge test of `UndoStack::push`: after `cmd.redo()` the code matches
`(cmd.id(), self.stack.get_unchecked(len - 1).id())` and merges on
`(Some(id1), Some(id2)) if id1 == id2`, returning the popped top command.
`stack1` is the already-truncated stack and `len` the cursor (`len ≥ 1` at the
call site).  An out-of-range read would be UB in the source and is unreachable
when the cursor invariant holds; the model reports no merge there. -/
def mergeCandidate (ops : CmdOps C R) (stack1 : List (DynCmd C)) (len : Nat)
    (cmd' : DynCmd C) : Option (DynCmd C) :=
  match stack1.get? (len - 1) with
  | some top =>
      match cmd'.id ops, top.id ops with
      | some id1, some id2 => if id1 = id2 then some top else none
      | _, _ => none
  | none => none

/-- The stack/cursor update of `UndoStack::push` after the command has been
invoked (`src/stack.rs` lines 451–481): the empty-stack case, the merge case
(pop the top, push `MergeCmd`), the eviction case (`len == limit`: drain the
first `len / 4 + 1` entries and subtract `x - 1` from the cursor), and the
plain push.  Returns the new stack and the new cursor. -/
def pushEntry (ops : CmdOps C R) (limit : Option Nat) (stack1 : List (DynCmd C))
    (len : Nat) (cmd' : DynCmd C) : List (DynCmd C) × Nat :=
  if len = 0 then
    (stack1 ++ [cmd'], len + 1)
  else
    match mergeCandidate ops stack1 len cmd' with
    | some top => (stack1.take (len - 1) ++ [DynCmd.merged top cmd'], len)
    | none =>
        match limit with
        | some l =>
            if len = l then
              let x := len / 4 + 1
              (stack1.drop x ++ [cmd'], len - (x - 1))
            else
              (stack1 ++ [cmd'], len + 1)
        | none => (stack1 ++ [cmd'], len + 1)

/-- `UndoStack::push`: snapshot `is_dirty`, truncate the stack to the cursor,
invoke `cmd.redo()`, insert the (possibly merged) command, and fire `on_clean`
iff the stack was dirty before the push. -/
def UndoStack.push (ops : CmdOps C R) (s : UndoStack C) (r : R) (cmd : DynCmd C) :
    UndoStack C × R × Option Event :=
  let isDirty := s.isDirty
  let stack1 := s.stack.take s.idx
  let p := cmd.redo ops r
  let q := pushEntry ops s.limit stack1 s.idx p.1
  (⟨q.1, q.2, s.limit⟩, p.2, if isDirty then some Event.clean else none)

/-- `UndoStack::undo`: if `idx > 0`, decrement the cursor, invoke `undo` on the
command now under the cursor in place, and fire `on_dirty` iff the stack was
clean before and is dirty after.  The unchecked read is UB when the cursor
exceeds the stack length (unreachable under the invariant); the model returns
the state unchanged there. -/
def UndoStack.undo (ops : CmdOps C R) (s : UndoStack C) (r : R) :
    UndoStack C × R × Option Event :=
  if 0 < s.idx then
    let isClean := s.isClean
    let i := s.idx - 1
    match s.stack.get? i with
    | some c =>
        let p := DynCmd.undo ops c r
        let t : UndoStack C := ⟨s.stack.set i p.1, i, s.limit⟩
        (t, p.2, if isClean && t.isDirty then some Event.dirty else none)
    | none => (s, r, none)
  else
    (s, r, none)

/-- `UndoStack::redo`: if `idx < stack.len()`, invoke `redo` on the command at
the cursor in place, increment the cursor, and fire `on_clean` iff the stack
was dirty before and is clean after. -/
def UndoStack.redo (ops : CmdOps C R) (s : UndoStack C) (r : R) :
    UndoStack C × R × Option Event :=
  if h : s.idx < s.stack.length then
    let isDirty := s.isDirty
    let c := s.stack.get ⟨s.idx, h⟩
    let p := DynCmd.redo ops c r
    let t : UndoStack C := ⟨s.stack.set s.idx p.1, s.idx + 1, s.limit⟩
    (t, p.2, if isDirty && t.isClean then some Event.clean else none)
  else
    (s, r, none)

/-- One user-visible operation on the stack. -/
inductive Op (C : Type) where
  | push : DynCmd C → Op C
  | undo : Op C
  | redo : Op C
deriving DecidableEq, Repr

/-- Run one operation, keeping the fired callback. -/
def step (ops : CmdOps C R) (sr : UndoStack C × R) (op : Op C) :
    UndoStack C × R × Option Event :=
  match op with
  | .push cmd => UndoStack.push ops sr.1 sr.2 cmd
  | .undo => UndoStack.undo ops sr.1 sr.2
  | .redo => UndoStack.redo ops sr.1 sr.2

/-- Run a sequence of operations, discarding the callbacks. -/
def run (ops : CmdOps C R) (prog : List (Op C)) (sr : UndoStack C × R) :
    UndoStack C × R :=
  prog.foldl (fun sr op => ((step ops sr op).1, (step ops sr op).2.1)) sr

/-- The cursor invariant of the spec: `0 ≤ cursor ≤ |entries|` (the lower bound
is inherent to `Nat`) and, when a limit is set, `|entries| ≤ limit`. -/
def Inv (s : UndoStack C) : Prop :=
  s.idx ≤ s.stack.length ∧ ∀ l, s.limit = some l → s.stack.length ≤ l

/-- The spec constrains a set limit to be at least 1 (`limit(n≥1)`). -/
def GoodLimit (s : UndoStack C) : Prop :=
  ∀ l, s.limit = some l → 1 ≤ l

/-! ### The newer command layer: `src/lib.rs` and `src/merge.rs` -/

/-- The `Merge` policy enum of `src/lib.rs`: `Always`, `If(u32)`, `Never`.
(`src/merge.rs` calls the always-merging variant `Merge::Yes`; it is the
`Always` variant of the enum declared in `src/lib.rs`.) -/
inductive Merge where
  | Always : Merge
  | If : Nat → Merge
  | Never : Merge
deriving DecidableEq, Repr

variable {E : Type}

/-- The `Command<R>` trait of `src/lib.rs`: fallible `apply` / `undo` / `redo`
(`&mut self`, so each returns the updated command state with the receiver) and
the `merge` policy query.  `E` is the boxed error type. -/
structure CommandOps (C R E : Type) where
  apply : C → R → Except E (C × R)
  undo : C → R → Except E (C × R)
  redo : C → R → Except E (C × R)
  merge : C → Merge

/-- `Merged::apply` (`src/merge.rs`): `for command in &mut self.commands {
command.apply(receiver)?; }` — front to back, stopping at the first error. -/
def Merged.apply (ops : CommandOps C R E) : List C → R → Except E (List C × R)
  | [], r => .ok ([], r)
  | c :: cs, r => do
      let p ← ops.apply c r
      let q ← Merged.apply ops cs p.2
      .ok (p.1 :: q.1, q.2)

/-- `Merged::undo` (`src/merge.rs`): `for command in
self.commands.iter_mut().rev() { command.undo(receiver)?; }` — the suffix is
undone first, the head command last. -/
def Merged.undo (ops : CommandOps C R E) : List C → R → Except E (List C × R)
  | [], r => .ok ([], r)
  | c :: cs, r => do
      let q ← Merged.undo ops cs r
      let p ← ops.undo c q.2
      .ok (p.1 :: q.1, p.2)

/-- `Merged::redo` (`src/merge.rs`): like `apply`, front to back with the
`redo` method. -/
def Merged.redo (ops : CommandOps C R E) : List C → R → Except E (List C × R)
  | [], r => .ok ([], r)
  | c :: cs, r => do
      let p ← ops.redo c r
      let q ← Merged.redo ops cs p.2
      .ok (p.1 :: q.1, q.2)

/-- `Merged::merge` (`src/merge.rs`):
`self.commands.first().map_or(Merge::Yes, Command::merge)` — the policy of the
first sub-command, or the always-merging variant when there is none. -/
def Merged.mergePolicy (ops : CommandOps C R E) (cs : List C) : Merge :=
  (cs.head?.map ops.merge).getD Merge.Always

/-- Specification-order traversal: invoke `f` on each command of the list in
index order, threading the receiver and stopping at the first error.  Used to
state what "applied in index order" means. -/
def seqRun (f : C → R → Except E (C × R)) : List C → R → Except E (List C × R)
  | [], r => .ok ([], r)
  | c :: cs, r => do
      let p ← f c r
      let q ← seqRun f cs p.2
      .ok (p.1 :: q.1, q.2)

/-- Specification-order traversal for the infallible `UndoCmd` world: invoke
`f` on each command in index order, threading the receiver. -/
def leafRun (f : C → R → C × R) : List C → R → List C × R
  | [], r => ([], r)
  | c :: cs, r =>
      let p := f c r
      let q := leafRun f cs p.2
      (p.1 :: q.1, q.2)

/-- The leaves of a `DynCmd` tree in left-to-right (index) order: the sequence
of user commands a nest of `MergeCmd`s stands for. -/
def DynCmd.leaves : DynCmd C → List C
  | .base c => [c]
  | .merged a b => a.leaves ++ b.leaves

/-! ### Helper lemmas about `pushEntry` -/

lemma div_four_succ_le {len : Nat} (h : len ≠ 0) : len / 4 + 1 ≤ len := by
  have : len / 4 < len := Nat.div_lt_self (Nat.pos_of_ne_zero h) (by norm_num)
  omega

/-- After the insertion step of `push`, the cursor equals the stack length:
every push leaves the stack clean. -/
lemma pushEntry_snd_eq_length (ops : CmdOps C R) (limit : Option Nat)
    (stack1 : List (DynCmd C)) (len : Nat) (cmd' : DynCmd C)
    (h : stack1.length = len) :
    (pushEntry ops limit stack1 len cmd').2 =
      (pushEntry ops limit stack1 len cmd').1.length := by
  unfold pushEntry
  split
  · simp [h]
  · rename_i h0
    split
    · simp only [List.length_append, List.length_take, List.length_cons,
        List.length_nil, h]
      omega
    · split
      · split
        · rename_i heq
          have hx := div_four_succ_le h0
          simp only [List.length_append, List.length_drop, List.length_cons,
            List.length_nil, h]
          omega
        · simp [h]
      · simp [h]

/-- After the insertion step of `push`, the stack length stays within a set
limit of at least 1. -/
lemma pushEntry_length_le (ops : CmdOps C R) (limit : Option Nat)
    (stack1 : List (DynCmd C)) (len : Nat) (cmd' : DynCmd C) (l : Nat)
    (h : stack1.length = len) (hlim : limit = some l) (hl1 : 1 ≤ l)
    (hlen : len ≤ l) :
    (pushEntry ops limit stack1 len cmd').1.length ≤ l := by
  unfold pushEntry
  split
  · rename_i h0
    simp only [List.length_append, List.length_cons, List.length_nil, h]
    omega
  · rename_i h0
    split
    · simp only [List.length_append, List.length_take, List.length_cons,
        List.length_nil, h]
      omega
    · split
      · rename_i lv
        have hll : lv = l := Option.some.inj hlim
        subst hll
        split
        · rename_i heq
          have hx := div_four_succ_le h0
          simp only [List.length_append, List.length_drop, List.length_cons,
            List.length_nil, h]
          omega
        · rename_i hne
          simp only [List.length_append, List.length_cons, List.length_nil, h]
          omega
      · exact absurd hlim (by simp)

/-- When no merge happens, the insertion step appends the new command at the
end and sets the cursor one past the preserved prefix. -/
lemma pushEntry_no_merge (ops : CmdOps C R) (limit : Option Nat)
    (stack1 : List (DynCmd C)) (len : Nat) (cmd' : DynCmd C)
    (h : stack1.length = len)
    (hm : len = 0 ∨ mergeCandidate ops stack1 len cmd' = none) :
    ∃ ys, pushEntry ops limit stack1 len cmd' = (ys ++ [cmd'], ys.length + 1) := by
  unfold pushEntry
  split
  · exact ⟨stack1, by simp [h]⟩
  · rename_i h0
    have hmc : mergeCandidate ops stack1 len cmd' = none := hm.resolve_left h0
    rw [hmc]
    cases limit with
    | none => exact ⟨stack1, by simp [h]⟩
    | some l =>
        by_cases heq : len = l
        · refine ⟨stack1.drop (len / 4 + 1), ?_⟩
          have hx := div_four_succ_le h0
          have harith : len - (len / 4 + 1 - 1) = len - (len / 4 + 1) + 1 := by
            omega
          simp only [if_pos heq, List.length_drop, h, harith]
        · exact ⟨stack1, by simp [heq, h]⟩

/-- A command without a merge id never merges. -/
lemma mergeCandidate_of_id_none (ops : CmdOps C R) (stack1 : List (DynCmd C))
    (len : Nat) (cmd' : DynCmd C) (hid : cmd'.id ops = none) :
    mergeCandidate ops stack1 len cmd' = none := by
  unfold mergeCandidate
  split
  · rename_i top htop
    rw [hid]
  · rfl

/-! ### Preservation of the cursor invariant -/

lemma take_idx_length (s : UndoStack C) (h : s.idx ≤ s.stack.length) :
    (s.stack.take s.idx).length = s.idx := by
  simp [List.length_take]
  omega

/-- Unfolding of `UndoStack.push` in terms of `pushEntry`. -/
lemma push_eq (ops : CmdOps C R) (s : UndoStack C) (r : R) (cmd : DynCmd C) :
    UndoStack.push ops s r cmd =
      (⟨(pushEntry ops s.limit (s.stack.take s.idx) s.idx
            ((cmd.redo ops r).1)).1,
        (pushEntry ops s.limit (s.stack.take s.idx) s.idx
            ((cmd.redo ops r).1)).2, s.limit⟩,
       (cmd.redo ops r).2,
       if s.isDirty then some Event.clean else none) := rfl

/-- A push always leaves the stack clean (`debug_assert_eq!(self.idx,
self.stack.len())` in the source). -/
lemma push_clean (ops : CmdOps C R) (s : UndoStack C) (r : R) (cmd : DynCmd C)
    (h : s.idx ≤ s.stack.length) :
    (UndoStack.push ops s r cmd).1.idx =
      (UndoStack.push ops s r cmd).1.stack.length := by
  rw [push_eq]
  exact pushEntry_snd_eq_length _ _ _ _ _ (take_idx_length s h)

lemma push_inv (ops : CmdOps C R) (s : UndoStack C) (r : R) (cmd : DynCmd C)
    (hInv : Inv s) (hg : GoodLimit s) :
    Inv (UndoStack.push ops s r cmd).1 := by
  refine ⟨le_of_eq (push_clean ops s r cmd hInv.1), ?_⟩
  intro l hl
  rw [push_eq] at hl ⊢
  exact pushEntry_length_le _ _ _ _ _ _ (take_idx_length s hInv.1) hl
    (hg l hl) (le_trans hInv.1 (hInv.2 l hl))

lemma undo_inv (ops : CmdOps C R) (s : UndoStack C) (r : R) (hInv : Inv s) :
    Inv (UndoStack.undo ops s r).1 := by
  unfold UndoStack.undo
  split
  · dsimp only
    cases hc : s.stack.get? (s.idx - 1) <;> simp only [hc]
    · exact hInv
    · refine ⟨?_, ?_⟩
      · have h1 := hInv.1
        simp only [List.length_set]
        omega
      · intro l hl
        simp only [List.length_set]
        exact hInv.2 l hl
  · exact hInv

lemma redo_inv (ops : CmdOps C R) (s : UndoStack C) (r : R) (hInv : Inv s) :
    Inv (UndoStack.redo ops s r).1 := by
  unfold UndoStack.redo
  split
  · rename_i h
    refine ⟨?_, ?_⟩
    · have h1 := hInv.1
      simp only [List.length_set]
      omega
    · intro l hl
      simp only [List.length_set]
      exact hInv.2 l hl
  · exact hInv

lemma push_limit (ops : CmdOps C R) (s : UndoStack C) (r : R) (cmd : DynCmd C) :
    (UndoStack.push ops s r cmd).1.limit = s.limit := rfl

lemma undo_limit (ops : CmdOps C R) (s : UndoStack C) (r : R) :
    (UndoStack.undo ops s r).1.limit = s.limit := by
  unfold UndoStack.undo
  split
  · dsimp only
    cases hc : s.stack.get? (s.idx - 1) <;> simp only [hc]
  · rfl

lemma redo_limit (ops : CmdOps C R) (s : UndoStack C) (r : R) :
    (UndoStack.redo ops s r).1.limit = s.limit := by
  unfold UndoStack.redo
  split <;> rfl

lemma goodLimit_of_limit_eq {s t : UndoStack C} (h : t.limit = s.limit)
    (hg : GoodLimit s) : GoodLimit t := by
  intro l hl
  exact hg l (h ▸ hl)

lemma step_inv (ops : CmdOps C R) (sr : UndoStack C × R) (op : Op C)
    (hInv : Inv sr.1) (hg : GoodLimit sr.1) :
    Inv (step ops sr op).1 ∧ GoodLimit (step ops sr op).1 := by
  cases op with
  | push cmd =>
      exact ⟨push_inv ops sr.1 sr.2 cmd hInv hg,
        goodLimit_of_limit_eq (push_limit ops sr.1 sr.2 cmd) hg⟩
  | undo =>
      exact ⟨undo_inv ops sr.1 sr.2 hInv,
        goodLimit_of_limit_eq (undo_limit ops sr.1 sr.2) hg⟩
  | redo =>
      exact ⟨redo_inv ops sr.1 sr.2 hInv,
        goodLimit_of_limit_eq (redo_limit ops sr.1 sr.2) hg⟩

lemma run_inv (ops : CmdOps C R) (prog : List (Op C)) :
    ∀ sr : UndoStack C × R, Inv sr.1 → GoodLimit sr.1 →
      Inv (run ops prog sr).1 ∧ GoodLimit (run ops prog sr).1 := by
  induction prog with
  | nil => exact fun sr h hg => ⟨h, hg⟩
  | cons op rest ih =>
      intro sr h hg
      have hstep := step_inv ops sr op h hg
      exact ih ((step ops sr op).1, (step ops sr op).2.1) hstep.1 hstep.2

/-! ### Concrete command tables used by witnesses and counterexamples -/

/-- Commands that do nothing and never merge (no id). -/
def unitOps : CmdOps Unit Unit :=
  ⟨fun c r => (c, r), fun c r => (c, r), fun _ => none⟩

/-- Commands over a `Nat` state that do nothing but carry their state as merge
id, so two equal commands merge. -/
def natIdOps : CmdOps Nat Unit :=
  ⟨fun c r => (c, r), fun c r => (c, r), fun c => some c⟩

/-- An increment command over an integer receiver: `redo` adds one, `undo`
subtracts one (a true inverse), and every instance carries merge id 0. -/
def incOps : CmdOps Unit Int :=
  ⟨fun c r => (c, r + 1), fun c r => (c, r - 1), fun _ => some 0⟩

/-! ### Claim C1 -/

/-- Claim C1: for any sequence of successful push (apply), undo, and redo
operations run from a fresh `UndoStack`, the cursor invariant
`0 ≤ cursor ≤ |entries|` holds after every operation (the run is quantified
over all operation sequences, hence over every prefix), and when a limit is
set — the spec requires a set limit to satisfy `limit ≥ 1` — the bound
`|entries| ≤ limit` holds as well. -/
theorem undoStack_cursor_invariant {C R : Type} (ops : CmdOps C R)
    (limit : Option Nat) (hl : ∀ n, limit = some n → 1 ≤ n)
    (prog : List (Op C)) (r : R) :
    Inv (run ops prog (UndoStack.new limit, r)).1 := by
  refine (run_inv ops prog (UndoStack.new limit, r) ⟨Nat.le_refl 0, ?_⟩ ?_).1
  · intro l hli
    exact Nat.zero_le l
  · intro l hli
    exact hl l hli

/-- Witness for C1 at a concrete input: limit 2 and a run of three pushes, an
undo and a redo. -/
theorem undoStack_cursor_invariant_witness :
    (∀ n, (some 2 : Option Nat) = some n → 1 ≤ n) ∧
      Inv (run unitOps
        [Op.push (DynCmd.base ()), Op.push (DynCmd.base ()),
         Op.push (DynCmd.base ()), Op.undo, Op.redo]
        (UndoStack.new (some 2), ())).1 := by
  have hl : ∀ n, (some 2 : Option Nat) = some n → 1 ≤ n := by
    intro n h
    injection h with h
    omega
  exact ⟨hl, undoStack_cursor_invariant unitOps (some 2) hl _ ()⟩

/-! ### Claim C10 -/

/-- Claim C10: every push leaves the record clean (`cursor = |entries|`
afterwards, the source's own `debug_assert`), so a push never fires the
became-dirty callback, and it fires the became-clean callback exactly when the
redo tail was non-empty (`cursor < |entries|`) immediately before the push. -/
theorem undoStack_push_leaves_clean {C R : Type} (ops : CmdOps C R)
    (s : UndoStack C) (r : R) (cmd : DynCmd C) (h : s.idx ≤ s.stack.length) :
    (UndoStack.push ops s r cmd).1.idx =
        (UndoStack.push ops s r cmd).1.stack.length ∧
      (UndoStack.push ops s r cmd).2.2 ≠ some Event.dirty ∧
      ((UndoStack.push ops s r cmd).2.2 = some Event.clean ↔
        s.idx < s.stack.length) := by
  refine ⟨push_clean ops s r cmd h, ?_, ?_⟩
  · rw [push_eq]
    by_cases hd : s.isDirty
    · simp [hd]
    · simp [hd]
  · rw [push_eq]
    by_cases hd : s.idx = s.stack.length
    · have hfalse : s.isDirty = false := by
        simp [UndoStack.isDirty, UndoStack.isClean, hd]
      simp [hfalse]
      omega
    · have htrue : s.isDirty = true := by
        simp [UndoStack.isDirty, UndoStack.isClean, hd]
      simp [htrue]
      omega

/-- Witness for C10: a push onto a dirty one-entry stack (cursor 0). -/
theorem undoStack_push_leaves_clean_witness :
    (UndoStack.mk [DynCmd.base ()] 0 none : UndoStack Unit).idx ≤
        (UndoStack.mk [DynCmd.base ()] 0 none : UndoStack Unit).stack.length ∧
      ((UndoStack.push unitOps (UndoStack.mk [DynCmd.base ()] 0 none) ()
          (DynCmd.base ())).1.idx =
        (UndoStack.push unitOps (UndoStack.mk [DynCmd.base ()] 0 none) ()
          (DynCmd.base ())).1.stack.length ∧
      (UndoStack.push unitOps (UndoStack.mk [DynCmd.base ()] 0 none) ()
          (DynCmd.base ())).2.2 ≠ some Event.dirty ∧
      ((UndoStack.push unitOps (UndoStack.mk [DynCmd.base ()] 0 none) ()
          (DynCmd.base ())).2.2 = some Event.clean ↔
        (UndoStack.mk [DynCmd.base ()] 0 none : UndoStack Unit).idx <
          (UndoStack.mk [DynCmd.base ()] 0 none : UndoStack Unit).stack.length)) :=
  ⟨by decide,
   undoStack_push_leaves_clean unitOps (UndoStack.mk [DynCmd.base ()] 0 none) ()
     (DynCmd.base ()) (by decide)⟩

/-! ### Claim C5 -/

/-- The redo-tail truncation step of `push`: `self.stack.truncate(len)` with
`len = self.idx`. -/
def UndoStack.truncated (s : UndoStack C) : UndoStack C :=
  ⟨s.stack.take s.idx, s.idx, s.limit⟩

/-- Claim C5: `push` truncates the entries to the cursor before invoking the
command.  Consequently (first two conjuncts) the resulting state and receiver
coincide with those of a push onto the already-truncated record — the redo
tail never influences nor survives the push, whatever the command does — and
(third conjunct) the command is invoked: the resulting receiver is exactly the
receiver produced by `cmd.redo`, for every command (in `src/stack.rs` command
invocation is infallible, so every invocation succeeds). -/
theorem undoStack_push_truncates_first {C R : Type} (ops : CmdOps C R)
    (s : UndoStack C) (r : R) (cmd : DynCmd C) :
    (UndoStack.push ops s r cmd).1 =
        (UndoStack.push ops s.truncated r cmd).1 ∧
      (UndoStack.push ops s r cmd).2.1 =
        (UndoStack.push ops s.truncated r cmd).2.1 ∧
      (UndoStack.push ops s r cmd).2.1 = (cmd.redo ops r).2 := by
  refine ⟨?_, rfl, rfl⟩
  rw [push_eq, push_eq]
  simp [UndoStack.truncated, List.take_take]

/-! ### Claim C6 -/

lemma push_event (ops : CmdOps C R) (s : UndoStack C) (r : R) (cmd : DynCmd C) :
    (UndoStack.push ops s r cmd).2.2 =
      if s.isDirty then some Event.clean else none := rfl

lemma push_canRedo_false (ops : CmdOps C R) (s : UndoStack C) (r : R)
    (cmd : DynCmd C) (h : s.idx ≤ s.stack.length) :
    (UndoStack.push ops s r cmd).1.canRedo = false := by
  have hcl := push_clean ops s r cmd h
  simp [UndoStack.canRedo, hcl]

/-- Claim C6: across each of the three operations the clean/dirty callback
fires exactly when the redo-availability predicate `cursor < |entries|`
changes value, and in the direction of the change: `on_clean` when it flips to
false, `on_dirty` when it flips to true. -/
theorem undoStack_signal_iff_flip {C R : Type} (ops : CmdOps C R)
    (s : UndoStack C) (r : R) (op : Op C) (h : s.idx ≤ s.stack.length) :
    (step ops (s, r) op).2.2 =
      (if s.canRedo && !(step ops (s, r) op).1.canRedo then some Event.clean
       else if !s.canRedo && (step ops (s, r) op).1.canRedo then
         some Event.dirty
       else none) := by
  cases op with
  | push cmd =>
      have hc := push_canRedo_false ops s r cmd h
      by_cases hd : s.idx = s.stack.length
      · have h1 : s.isDirty = false := by
          simp [UndoStack.isDirty, UndoStack.isClean, hd]
        have h2 : s.canRedo = false := by
          simp [UndoStack.canRedo]
          omega
        simp [step, push_event, h1, h2, hc]
      · have h1 : s.isDirty = true := by
          simp [UndoStack.isDirty, UndoStack.isClean, hd]
        have h2 : s.canRedo = true := by
          simp [UndoStack.canRedo]
          omega
        simp [step, push_event, h1, h2, hc]
  | undo =>
      by_cases h0 : 0 < s.idx
      · have hi : s.idx - 1 < s.stack.length := by omega
        have hget : s.stack.get? (s.idx - 1) = some s.stack[s.idx - 1] := by
          rw [List.get?_eq_getElem?]
          exact List.getElem?_eq_getElem hi
        simp only [step, UndoStack.undo, if_pos h0]
        rw [hget]
        simp [UndoStack.isClean, UndoStack.isDirty, UndoStack.canRedo,
          List.length_set]
        split_ifs <;> simp_all <;> omega
      · have hz : s.idx = 0 := by omega
        simp [step, UndoStack.undo, hz]
  | redo =>
      by_cases hr : s.idx < s.stack.length
      · simp only [step, UndoStack.redo, dif_pos hr]
        simp [UndoStack.isClean, UndoStack.isDirty, UndoStack.canRedo,
          List.length_set]
        split_ifs <;> simp_all <;> omega
      · simp only [step, UndoStack.redo, dif_neg hr]
        have h2 : s.canRedo = false := by
          simp [UndoStack.canRedo]
          omega
        simp [h2]

/-- Witness for C6: an undo from a clean two-entry stack fires `on_dirty`,
matching the predicate flip. -/
theorem undoStack_signal_iff_flip_witness :
    (UndoStack.mk [DynCmd.base (), DynCmd.base ()] 2 none : UndoStack Unit).idx ≤
        (UndoStack.mk [DynCmd.base (), DynCmd.base ()] 2 none :
          UndoStack Unit).stack.length ∧
      (step unitOps (UndoStack.mk [DynCmd.base (), DynCmd.base ()] 2 none, ())
          Op.undo).2.2 =
        (if (UndoStack.mk [DynCmd.base (), DynCmd.base ()] 2 none :
              UndoStack Unit).canRedo &&
            !(step unitOps
                (UndoStack.mk [DynCmd.base (), DynCmd.base ()] 2 none, ())
                Op.undo).1.canRedo then some Event.clean
         else if !(UndoStack.mk [DynCmd.base (), DynCmd.base ()] 2 none :
              UndoStack Unit).canRedo &&
            (step unitOps
                (UndoStack.mk [DynCmd.base (), DynCmd.base ()] 2 none, ())
                Op.undo).1.canRedo then some Event.dirty
         else none) :=
  ⟨by decide,
   undoStack_signal_iff_flip unitOps
     (UndoStack.mk [DynCmd.base (), DynCmd.base ()] 2 none) () Op.undo
     (by decide)⟩

/-! ### Claim C8 -/

/-- Modelled from the spec: the newer `Record::undo` (its `record.rs` is not
in `src/`) returns `Option<Result>` and "if cursor == 0, return `None`";
otherwise it performs the undo.  The underlying behaviour is the `UndoStack`
undo embedded above. -/
def recordUndo (ops : CmdOps C R) (s : UndoStack C) (r : R) :
    Option (UndoStack C × R × Option Event) :=
  if s.idx = 0 then none else some (UndoStack.undo ops s r)

/-- Modelled from the spec: the newer `Record::redo` returns `Option<Result>`
and "if cursor == |entries|, `None`"; otherwise it performs the redo. -/
def recordRedo (ops : CmdOps C R) (s : UndoStack C) (r : R) :
    Option (UndoStack C × R × Option Event) :=
  if s.idx = s.stack.length then none else some (UndoStack.redo ops s r)

/-- Claim C8: `undo` at cursor 0 and `redo` at cursor `|entries|` are no-ops —
state, entries and receiver unchanged, no callback fired — and the
Option-returning interface of the spec reports the boundary as the absent
value `none`, not as an error. -/
theorem undoStack_boundary_noop {C R : Type} (ops : CmdOps C R)
    (s : UndoStack C) (r : R) :
    (s.idx = 0 → UndoStack.undo ops s r = (s, r, none)) ∧
      (s.idx = s.stack.length → UndoStack.redo ops s r = (s, r, none)) ∧
      (s.idx = 0 → recordUndo ops s r = none) ∧
      (s.idx = s.stack.length → recordRedo ops s r = none) := by
  refine ⟨?_, ?_, ?_, ?_⟩
  · intro h0
    simp [UndoStack.undo, h0]
  · intro hN
    have : ¬ s.idx < s.stack.length := by omega
    simp [UndoStack.redo, this]
  · intro h0
    simp [recordUndo, h0]
  · intro hN
    simp [recordRedo, hN]

/-- Witness for C8: the empty stack sits at both boundaries. -/
theorem undoStack_boundary_noop_witness :
    ((UndoStack.new none : UndoStack Unit).idx = 0 ∧
        UndoStack.undo unitOps (UndoStack.new none) () =
          (UndoStack.new none, (), none)) ∧
      ((UndoStack.new none : UndoStack Unit).idx =
          (UndoStack.new none : UndoStack Unit).stack.length ∧
        UndoStack.redo unitOps (UndoStack.new none) () =
          (UndoStack.new none, (), none)) ∧
      recordUndo unitOps (UndoStack.new none) () = none ∧
      recordRedo unitOps (UndoStack.new none) () = none :=
  ⟨⟨by decide, (undoStack_boundary_noop unitOps (UndoStack.new none) ()).1 (by decide)⟩,
   ⟨by decide, (undoStack_boundary_noop unitOps (UndoStack.new none) ()).2.1 (by decide)⟩,
   (undoStack_boundary_noop unitOps (UndoStack.new none) ()).2.2.1 (by decide),
   (undoStack_boundary_noop unitOps (UndoStack.new none) ()).2.2.2 (by decide)⟩

/-! ### Claim C2 -/

/-- The eviction branch of the insertion step (`Some(limit) if len == limit`):
drain the first `len / 4 + 1` entries and subtract `len / 4` from the cursor. -/
lemma pushEntry_evict (ops : CmdOps C R) (stack1 : List (DynCmd C))
    (len l : Nat) (cmd' : DynCmd C) (h0 : ¬ len = 0)
    (hmc : mergeCandidate ops stack1 len cmd' = none) (heq : len = l) :
    pushEntry ops (some l) stack1 len cmd' =
      (stack1.drop (len / 4 + 1) ++ [cmd'], len - len / 4) := by
  unfold pushEntry
  rw [if_neg h0, hmc]
  have harith : len - (len / 4 + 1 - 1) = len - len / 4 := by omega
  simp only [if_pos heq, harith]

/-- Five no-op, non-merging pushes. -/
def fivePushes : List (Op Unit) :=
  List.replicate 5 (Op.push (DynCmd.base ()))

/-- Counterexample to C2: a record with limit 4, full (4 entries, cursor 4).
Were exactly one (the oldest) entry dropped and the cursor decremented by
exactly 1 on the next insertion, the record would again hold 4 entries with
cursor 4.  The code instead drains `limit / 4 + 1 = 2` entries at once
(`src/stack.rs` line 472: "Remove ~25% of the stack at once"), leaving 3
entries and cursor 3. -/
theorem undoStack_push_single_eviction_cx :
    (run unitOps fivePushes (UndoStack.new (some 4), ())).1.stack.length = 3 ∧
      (run unitOps fivePushes (UndoStack.new (some 4), ())).1.idx = 3 ∧
      ¬ (run unitOps fivePushes (UndoStack.new (some 4), ())).1.stack.length = 4 := by
  decide

/-- Claim C2 as amended: when a non-merging command is inserted into a record
whose entry count has reached its limit `l ≥ 1`, the code drops `l / 4 + 1`
entries (the oldest ones, from the front) and the cursor decreases by `l / 4`
(net of the insertion), leaving the record clean; only for `l ≤ 3` is exactly
one entry dropped. -/
theorem undoStack_push_eviction {C R : Type} (ops : CmdOps C R)
    (s : UndoStack C) (r : R) (cmd : DynCmd C) (l : Nat)
    (hlim : s.limit = some l) (hl : 1 ≤ l) (hidx : s.idx = l)
    (hlen : s.stack.length = l)
    (hid : DynCmd.id ops (DynCmd.redo ops cmd r).1 = none) :
    (UndoStack.push ops s r cmd).1.stack =
        s.stack.drop (l / 4 + 1) ++ [(DynCmd.redo ops cmd r).1] ∧
      (UndoStack.push ops s r cmd).1.idx = l - l / 4 := by
  subst hidx
  have htake : s.stack.take s.idx = s.stack := by
    rw [← hlen, List.take_length]
  have hmc := mergeCandidate_of_id_none ops s.stack s.idx
    ((DynCmd.redo ops cmd r).1) hid
  have h0 : ¬ s.idx = 0 := by omega
  rw [push_eq]
  rw [htake, hlim,
    pushEntry_evict ops s.stack s.idx s.idx ((DynCmd.redo ops cmd r).1) h0 hmc
      rfl]
  exact ⟨rfl, rfl⟩

/-- Witness for the amended C2: limit 4, full record, one more push. -/
theorem undoStack_push_eviction_witness :
    ((UndoStack.mk (List.replicate 4 (DynCmd.base ())) 4 (some 4) :
          UndoStack Unit).limit = some 4 ∧
        DynCmd.id unitOps (DynCmd.redo unitOps (DynCmd.base ()) ()).1 = none) ∧
      (UndoStack.push unitOps
          (UndoStack.mk (List.replicate 4 (DynCmd.base ())) 4 (some 4)) ()
          (DynCmd.base ())).1.stack =
        (UndoStack.mk (List.replicate 4 (DynCmd.base ())) 4 (some 4) :
          UndoStack Unit).stack.drop (4 / 4 + 1) ++
          [(DynCmd.redo unitOps (DynCmd.base ()) ()).1] ∧
      (UndoStack.push unitOps
          (UndoStack.mk (List.replicate 4 (DynCmd.base ())) 4 (some 4)) ()
          (DynCmd.base ())).1.idx = 4 - 4 / 4 :=
  ⟨⟨by decide, by decide⟩,
   (undoStack_push_eviction unitOps
      (UndoStack.mk (List.replicate 4 (DynCmd.base ())) 4 (some 4)) ()
      (DynCmd.base ()) 4 rfl (by decide) rfl (by decide) (by decide)).1,
   (undoStack_push_eviction unitOps
      (UndoStack.mk (List.replicate 4 (DynCmd.base ())) 4 (some 4)) ()
      (DynCmd.base ()) 4 rfl (by decide) rfl (by decide) (by decide)).2⟩

/-! ### Claim C3 -/

/-- The merge branch of the insertion step: pop the top entry and push the
`MergeCmd` composite of the old top followed by the new command, keeping the
cursor. -/
lemma pushEntry_merge (ops : CmdOps C R) (limit : Option Nat)
    (stack1 : List (DynCmd C)) (len : Nat) (cmd' top : DynCmd C)
    (h0 : ¬ len = 0) (hmc : mergeCandidate ops stack1 len cmd' = some top) :
    pushEntry ops limit stack1 len cmd' =
      (stack1.take (len - 1) ++ [DynCmd.merged top cmd'], len) := by
  unfold pushEntry
  rw [if_neg h0, hmc]

/-- The merge/undo/merge-again program refuting the entry-count part of C3:
push id-1, push id-2, undo, then push id-1 again (which merges with the top
entry after the redo tail `[id-2]` has been truncated). -/
def mergeAfterUndo : List (Op Nat) :=
  [Op.push (DynCmd.base 1), Op.push (DynCmd.base 2), Op.undo,
   Op.push (DynCmd.base 1)]

/-- Counterexample to C3: before the final (merging) push the record holds 2
entries with cursor 1; the push merges with the top entry and leaves the
cursor at 1 as claimed, but the entry count becomes 1, not 2 — the redo tail
is truncated by the same push, so "the number of entries is unchanged by that
apply" fails. -/
theorem undoStack_push_merge_length_cx :
    (run natIdOps (mergeAfterUndo.take 3) (UndoStack.new none, ())).1.stack.length = 2 ∧
      (run natIdOps (mergeAfterUndo.take 3) (UndoStack.new none, ())).1.idx = 1 ∧
      (run natIdOps mergeAfterUndo (UndoStack.new none, ())).1.stack =
        [DynCmd.merged (DynCmd.base 1) (DynCmd.base 1)] ∧
      (run natIdOps mergeAfterUndo (UndoStack.new none, ())).1.idx = 1 ∧
      ¬ (run natIdOps mergeAfterUndo (UndoStack.new none, ())).1.stack.length =
          (run natIdOps (mergeAfterUndo.take 3) (UndoStack.new none, ())).1.stack.length := by
  decide

/-- Claim C3 as amended: when the new command (after its invocation) and the
top entry after the redo-tail truncation both report the same merge id, push
replaces that top entry with a composite of the old top followed by the new
command; the cursor is unchanged, and the entry count equals the cursor — so
it is unchanged exactly when the record was clean before the push. -/
theorem undoStack_push_merge {C R : Type} (ops : CmdOps C R) (s : UndoStack C)
    (r : R) (cmd : DynCmd C) (top : DynCmd C) (n : Nat) (h1 : 1 ≤ s.idx)
    (h2 : s.idx ≤ s.stack.length)
    (htop : s.stack.get? (s.idx - 1) = some top)
    (hidn : DynCmd.id ops (DynCmd.redo ops cmd r).1 = some n)
    (htopn : DynCmd.id ops top = some n) :
    (UndoStack.push ops s r cmd).1.stack =
        s.stack.take (s.idx - 1) ++
          [DynCmd.merged top (DynCmd.redo ops cmd r).1] ∧
      (UndoStack.push ops s r cmd).1.idx = s.idx ∧
      (UndoStack.push ops s r cmd).1.stack.length = s.idx := by
  have hget : (s.stack.take s.idx).get? (s.idx - 1) = some top := by
    rw [List.get?_eq_getElem?, List.getElem?_take, if_pos (by omega : s.idx - 1 < s.idx),
      ← List.get?_eq_getElem?]
    exact htop
  have hmc : mergeCandidate ops (s.stack.take s.idx) s.idx
      ((DynCmd.redo ops cmd r).1) = some top := by
    unfold mergeCandidate
    rw [hget]
    simp [hidn, htopn]
  have h0 : ¬ s.idx = 0 := by omega
  rw [push_eq]
  rw [pushEntry_merge ops s.limit (s.stack.take s.idx) s.idx
    ((DynCmd.redo ops cmd r).1) top h0 hmc]
  have htt : (s.stack.take s.idx).take (s.idx - 1) = s.stack.take (s.idx - 1) := by
    rw [List.take_take]
    congr 1
    omega
  refine ⟨by rw [htt], rfl, ?_⟩
  rw [htt]
  simp [List.length_take]
  omega

/-- Witness for the amended C3: a clean one-entry record and a command with
the same id. -/
theorem undoStack_push_merge_witness :
    ((UndoStack.mk [DynCmd.base 1] 1 none : UndoStack Nat).stack.get? 0 =
          some (DynCmd.base 1) ∧
        DynCmd.id natIdOps (DynCmd.redo natIdOps (DynCmd.base 1) ()).1 =
          some 1) ∧
      (UndoStack.push natIdOps (UndoStack.mk [DynCmd.base 1] 1 none) ()
          (DynCmd.base 1)).1.stack =
        (UndoStack.mk [DynCmd.base 1] 1 none : UndoStack Nat).stack.take 0 ++
          [DynCmd.merged (DynCmd.base 1)
            (DynCmd.redo natIdOps (DynCmd.base 1) ()).1] ∧
      (UndoStack.push natIdOps (UndoStack.mk [DynCmd.base 1] 1 none) ()
          (DynCmd.base 1)).1.idx = 1 ∧
      (UndoStack.push natIdOps (UndoStack.mk [DynCmd.base 1] 1 none) ()
          (DynCmd.base 1)).1.stack.length = 1 :=
  ⟨⟨by decide, by decide⟩,
   (undoStack_push_merge natIdOps (UndoStack.mk [DynCmd.base 1] 1 none) ()
      (DynCmd.base 1) (DynCmd.base 1) 1 (by decide) (by decide) (by decide)
      (by decide) (by decide)).1,
   (undoStack_push_merge natIdOps (UndoStack.mk [DynCmd.base 1] 1 none) ()
      (DynCmd.base 1) (DynCmd.base 1) 1 (by decide) (by decide) (by decide)
      (by decide) (by decide)).2.1,
   (undoStack_push_merge natIdOps (UndoStack.mk [DynCmd.base 1] 1 none) ()
      (DynCmd.base 1) (DynCmd.base 1) 1 (by decide) (by decide) (by decide)
      (by decide) (by decide)).2.2⟩

/-! ### Claim C7 -/

/-- First push of the increment command onto a fresh record with receiver 0. -/
def incS1 : UndoStack Unit × Int × Option Event :=
  UndoStack.push incOps (UndoStack.new none) 0 (DynCmd.base ())

/-- Second push of the increment command (same merge id: the two merge). -/
def incS2 : UndoStack Unit × Int × Option Event :=
  UndoStack.push incOps incS1.1 incS1.2.1 (DynCmd.base ())

/-- One undo after the two pushes. -/
def incS3 : UndoStack Unit × Int × Option Event :=
  UndoStack.undo incOps incS2.1 incS2.2.1

/-- Counterexample to C7: the increment command's undo is a true inverse
(`(r + 1) - 1 = r`, checked below at the relevant receiver), yet pushing it
when the top entry carries the same merge id and then undoing once yields
receiver 0, not the pre-apply receiver 1: the push merged the command into the
top entry, and the single undo of the `MergeCmd` composite reverses both
commands. -/
theorem undoStack_push_undo_roundtrip_cx :
    incS1.2.1 = 1 ∧ incS2.2.1 = 2 ∧ incS3.2.1 = 0 ∧
      (DynCmd.undo incOps (DynCmd.redo incOps (DynCmd.base ()) 1).1
        (DynCmd.redo incOps (DynCmd.base ()) 1).2).2 = 1 ∧
      ¬ incS3.2.1 = incS1.2.1 := by
  decide

/-- Claim C7 as amended: for a command whose undo is a true inverse of its
invocation (at the current receiver), a push that does not merge with the top
entry followed by one undo restores the receiver to its pre-push value.  (When
the push merges, the single undo of the composite also reverses the commands
merged into, as the counterexample shows.) -/
theorem undoStack_push_undo_roundtrip {C R : Type} (ops : CmdOps C R)
    (s : UndoStack C) (r : R) (cmd : DynCmd C) (h : s.idx ≤ s.stack.length)
    (hnm : mergeCandidate ops (s.stack.take s.idx) s.idx
      (DynCmd.redo ops cmd r).1 = none)
    (hinv : (DynCmd.undo ops (DynCmd.redo ops cmd r).1
      (DynCmd.redo ops cmd r).2).2 = r) :
    (UndoStack.undo ops (UndoStack.push ops s r cmd).1
      (UndoStack.push ops s r cmd).2.1).2.1 = r := by
  obtain ⟨ys, hys⟩ := pushEntry_no_merge ops s.limit (s.stack.take s.idx)
    s.idx ((DynCmd.redo ops cmd r).1) (take_idx_length s h) (Or.inr hnm)
  rw [push_eq]
  dsimp only
  rw [hys]
  dsimp only
  unfold UndoStack.undo
  rw [if_pos (by omega : 0 < ys.length + 1)]
  dsimp only
  have hg : (ys ++ [(DynCmd.redo ops cmd r).1]).get? (ys.length + 1 - 1) =
      some ((DynCmd.redo ops cmd r).1) := by
    simp [List.get?_eq_getElem?]
  rw [hg]
  exact hinv

/-- Witness for the amended C7: a push onto the empty record (no merge
possible) with receiver 5, then one undo. -/
theorem undoStack_push_undo_roundtrip_witness :
    ((UndoStack.new none : UndoStack Unit).idx ≤
          (UndoStack.new none : UndoStack Unit).stack.length ∧
        mergeCandidate incOps
          ((UndoStack.new none : UndoStack Unit).stack.take
            (UndoStack.new none : UndoStack Unit).idx)
          (UndoStack.new none : UndoStack Unit).idx
          (DynCmd.redo incOps (DynCmd.base ()) 5).1 = none ∧
        (DynCmd.undo incOps (DynCmd.redo incOps (DynCmd.base ()) 5).1
          (DynCmd.redo incOps (DynCmd.base ()) 5).2).2 = 5) ∧
      (UndoStack.undo incOps
        (UndoStack.push incOps (UndoStack.new none) 5 (DynCmd.base ())).1
        (UndoStack.push incOps (UndoStack.new none) 5 (DynCmd.base ())).2.1).2.1 =
        5 :=
  ⟨⟨by decide, by decide, by decide⟩,
   undoStack_push_undo_roundtrip incOps (UndoStack.new none) 5 (DynCmd.base ())
     (by decide) (by decide) (by decide)⟩

/-! ### Claims C4 and C9: the composite commands -/

lemma merged_apply_eq_seqRun {E : Type} (ops : CommandOps C R E) (cs : List C)
    (r : R) : Merged.apply ops cs r = seqRun ops.apply cs r := by
  induction cs generalizing r with
  | nil => rfl
  | cons c cs ih =>
      simp only [Merged.apply, seqRun]
      cases h : ops.apply c r with
      | error e => simp [Bind.bind, Except.bind, h]
      | ok p => simp [Bind.bind, Except.bind, h, ih]

lemma merged_redo_eq_seqRun {E : Type} (ops : CommandOps C R E) (cs : List C)
    (r : R) : Merged.redo ops cs r = seqRun ops.redo cs r := by
  induction cs generalizing r with
  | nil => rfl
  | cons c cs ih =>
      simp only [Merged.redo, seqRun]
      cases h : ops.redo c r with
      | error e => simp [Bind.bind, Except.bind, h]
      | ok p => simp [Bind.bind, Except.bind, h, ih]

lemma seqRun_append {E : Type} (f : C → R → Except E (C × R)) (xs ys : List C)
    (r : R) :
    seqRun f (xs ++ ys) r =
      (seqRun f xs r).bind (fun p =>
        (seqRun f ys p.2).bind (fun q => .ok (p.1 ++ q.1, q.2))) := by
  induction xs generalizing r with
  | nil =>
      simp only [List.nil_append, seqRun]
      cases h : seqRun f ys r with
      | error e => simp [Except.bind, h]
      | ok q => simp [Except.bind, h]
  | cons x xs ih =>
      simp only [List.cons_append, seqRun]
      cases h : f x r with
      | error e => simp [Bind.bind, Except.bind, h]
      | ok p =>
          simp only [Bind.bind, Except.bind, h, List.append_eq]
          rw [ih]
          cases h2 : seqRun f xs p.2 with
          | error e => simp [Except.bind, h2]
          | ok p2 =>
              simp only [Except.bind, h2]
              cases h3 : seqRun f ys p2.2 with
              | error e => simp [Except.bind, h3]
              | ok q => simp [Except.bind, h3]

lemma merged_undo_eq_seqRun_rev {E : Type} (ops : CommandOps C R E)
    (cs : List C) (r : R) :
    Merged.undo ops cs r =
      Except.map (fun p => (p.1.reverse, p.2))
        (seqRun ops.undo cs.reverse r) := by
  induction cs generalizing r with
  | nil => rfl
  | cons c cs ih =>
      simp only [Merged.undo, List.reverse_cons]
      rw [seqRun_append]
      cases h : seqRun ops.undo cs.reverse r with
      | error e =>
          have ih2 : Merged.undo ops cs r = .error e := by
            rw [ih, h]
            rfl
          simp [Bind.bind, Except.bind, Except.map, h, ih2]
      | ok p =>
          have ih2 : Merged.undo ops cs r = .ok (p.1.reverse, p.2) := by
            rw [ih, h]
            rfl
          cases h2 : ops.undo c p.2 with
          | error e =>
              simp [Bind.bind, Except.bind, Except.map, h, h2, ih2, seqRun]
          | ok u =>
              simp [Bind.bind, Except.bind, Except.map, h, h2, ih2, seqRun]

lemma leafRun_append (f : C → R → C × R) (xs ys : List C) (r : R) :
    leafRun f (xs ++ ys) r =
      ((leafRun f xs r).1 ++ (leafRun f ys (leafRun f xs r).2).1,
        (leafRun f ys (leafRun f xs r).2).2) := by
  induction xs generalizing r with
  | nil => simp [leafRun]
  | cons x xs ih => simp [leafRun, ih]

lemma dynCmd_redo_leafRun (ops : CmdOps C R) (d : DynCmd C) (r : R) :
    (DynCmd.redo ops d r).1.leaves = (leafRun ops.redo d.leaves r).1 ∧
      (DynCmd.redo ops d r).2 = (leafRun ops.redo d.leaves r).2 := by
  induction d generalizing r with
  | base c => simp [DynCmd.redo, DynCmd.leaves, leafRun]
  | merged a b iha ihb =>
      constructor
      · simp only [DynCmd.redo, DynCmd.leaves]
        rw [leafRun_append, (iha r).1, (iha r).2, (ihb _).1]
      · simp only [DynCmd.redo, DynCmd.leaves]
        rw [leafRun_append, (iha r).2, (ihb _).2]

lemma dynCmd_undo_leafRun (ops : CmdOps C R) (d : DynCmd C) (r : R) :
    (DynCmd.undo ops d r).1.leaves =
        ((leafRun ops.undo d.leaves.reverse r).1).reverse ∧
      (DynCmd.undo ops d r).2 = (leafRun ops.undo d.leaves.reverse r).2 := by
  induction d generalizing r with
  | base c => simp [DynCmd.undo, DynCmd.leaves, leafRun]
  | merged a b iha ihb =>
      constructor
      · simp only [DynCmd.undo, DynCmd.leaves, List.reverse_append]
        rw [leafRun_append, (ihb r).1, (ihb r).2, (iha _).1,
          List.reverse_append]
      · simp only [DynCmd.undo, DynCmd.leaves, List.reverse_append]
        rw [leafRun_append, (ihb r).2, (iha _).2]

/-- Claim C4: for every receiver and every list of sub-commands, the `Merged`
composite applies its sub-commands in index order, undoes them in reverse
index order (running `seqRun` over the reversed list, with the updated command
states in reverse relative to index order), and redoes them in index order;
likewise the `MergeCmd` composite of `src/stack.rs` redoes its leaf commands
in index order and undoes them in reverse index order. -/
theorem composite_subcommand_order :
    (∀ (C R E : Type) (ops : CommandOps C R E) (cs : List C) (r : R),
        Merged.apply ops cs r = seqRun ops.apply cs r ∧
          Merged.redo ops cs r = seqRun ops.redo cs r ∧
          Merged.undo ops cs r =
            Except.map (fun p => (p.1.reverse, p.2))
              (seqRun ops.undo cs.reverse r)) ∧
      (∀ (C R : Type) (ops : CmdOps C R) (d : DynCmd C) (r : R),
        (DynCmd.redo ops d r).1.leaves = (leafRun ops.redo d.leaves r).1 ∧
          (DynCmd.redo ops d r).2 = (leafRun ops.redo d.leaves r).2 ∧
          (DynCmd.undo ops d r).1.leaves =
            ((leafRun ops.undo d.leaves.reverse r).1).reverse ∧
          (DynCmd.undo ops d r).2 =
            (leafRun ops.undo d.leaves.reverse r).2) :=
  ⟨fun _ _ _ ops cs r =>
    ⟨merged_apply_eq_seqRun ops cs r, merged_redo_eq_seqRun ops cs r,
      merged_undo_eq_seqRun_rev ops cs r⟩,
   fun _ _ ops d r =>
    ⟨(dynCmd_redo_leafRun ops d r).1, (dynCmd_redo_leafRun ops d r).2,
      (dynCmd_undo_leafRun ops d r).1, (dynCmd_undo_leafRun ops d r).2⟩⟩

/-- Claim C9: a composite command's merge policy is that of its first
sub-command, and the always-merging policy when it has no sub-commands
(`Merged::merge` in `src/merge.rs`); the `MergeCmd` composite of
`src/stack.rs` likewise reports the merge id of its first command. -/
theorem composite_merge_policy_first :
    (∀ (C R E : Type) (ops : CommandOps C R E),
        Merged.mergePolicy ops ([] : List C) = Merge.Always) ∧
      (∀ (C R E : Type) (ops : CommandOps C R E) (c : C) (cs : List C),
        Merged.mergePolicy ops (c :: cs) = ops.merge c) ∧
      (∀ (C R : Type) (ops : CmdOps C R) (a b : DynCmd C),
        DynCmd.id ops (DynCmd.merged a b) = DynCmd.id ops a) :=
  ⟨fun _ _ _ _ => rfl, fun _ _ _ _ _ _ => rfl, fun _ _ _ _ _ => rfl⟩

end Undo
